import Mathlib

/-!
Verification of the simplified-blockchain node (`blockchain.py`).

The development shallowly embeds the `Blockchain` class: blocks and
transactions become structures, the mutable instance becomes explicit state
passing, the canonical block digest is a full executable SHA-256 over the
exact `json.dumps(..., sort_keys=True)` serialization the source feeds it,
and the network side of `resolve_conflicts` becomes a list of peer
responses (`none` for an unreachable peer or non-200 answer, `some (length,
chain)` for a fetched body).
-/

set_option maxRecDepth 4000

namespace SHA256

/-- The 64 SHA-256 round constants (FIPS 180-4, written in decimal). -/
def K : List Nat :=
  [1116352408, 1899447441, 3049323471, 3921009573, 961987163,
   1508970993, 2453635748, 2870763221, 3624381080, 310598401,
   607225278, 1426881987, 1925078388, 2162078206, 2614888103,
   3248222580, 3835390401, 4022224774, 264347078, 604807628,
   770255983, 1249150122, 1555081692, 1996064986, 2554220882,
   2821834349, 2952996808, 3210313671, 3336571891, 3584528711,
   113926993, 338241895, 666307205, 773529912, 1294757372,
   1396182291, 1695183700, 1986661051, 2177026350, 2456956037,
   2730485921, 2820302411, 3259730800, 3345764771, 3516065817,
   3600352804, 4094571909, 275423344, 430227734, 506948616,
   659060556, 883997877, 958139571, 1322822218, 1537002063,
   1747873779, 1955562222, 2024104815, 2227730452, 2361852424,
   2428436474, 2756734187, 3204031479, 3329325298]

/-- The SHA-256 initial hash state (FIPS 180-4, written in decimal). -/
def H0 : List Nat :=
  [1779033703, 3144134277, 1013904242, 2773480762,
   1359893119, 2600822924, 528734635, 1541459225]

/-- Truncation to a 32-bit word. -/
def w32 (n : Nat) : Nat := n % 4294967296

/-- Right rotation of a 32-bit word by `k` bits. -/
def rotr (k n : Nat) : Nat := w32 ((n >>> k) ||| (n <<< (32 - k)))

def ssig0 (x : Nat) : Nat := (rotr 7 x) ^^^ (rotr 18 x) ^^^ (x >>> 3)

def ssig1 (x : Nat) : Nat := (rotr 17 x) ^^^ (rotr 19 x) ^^^ (x >>> 10)

def bsig0 (x : Nat) : Nat := (rotr 2 x) ^^^ (rotr 13 x) ^^^ (rotr 22 x)

def bsig1 (x : Nat) : Nat := (rotr 6 x) ^^^ (rotr 11 x) ^^^ (rotr 25 x)

/-- Big-endian byte expansion of `n` to `width` bytes. -/
def beBytes (width n : Nat) : List Nat :=
  (List.range width).map (fun i => (n >>> (8 * (width - 1 - i))) % 256)

/-- SHA-256 message padding: a 0x80 byte, zeros to 56 mod 64, then the
bit length as an 8-byte big-endian integer. -/
def pad (msg : List Nat) : List Nat :=
  let zeros := (120 - ((msg.length + 1) % 64)) % 64
  msg ++ [0x80] ++ List.replicate zeros 0 ++ beBytes 8 (8 * msg.length)

/-- Group a byte list into big-endian 32-bit words. -/
def wordsOf : List Nat → List Nat
  | a :: b :: c :: d :: rest =>
      ((a <<< 24) ||| (b <<< 16) ||| (c <<< 8) ||| d) :: wordsOf rest
  | _ => []

/-- Split a word list into `n` chunks of 16 words. -/
def chunks : Nat → List Nat → List (List Nat)
  | 0, _ => []
  | n + 1, ws => ws.take 16 :: chunks n (ws.drop 16)

/-- Extend the 16-word chunk by `n` further message-schedule words. -/
def extendW : Nat → List Nat → List Nat
  | 0, acc => acc
  | n + 1, acc =>
      let i := acc.length
      let w := w32 (acc.getD (i - 16) 0 + ssig0 (acc.getD (i - 15) 0) +
                    acc.getD (i - 7) 0 + ssig1 (acc.getD (i - 2) 0))
      extendW n (acc ++ [w])

/-- The 64-word message schedule of one chunk. -/
def schedule (chunk : List Nat) : List Nat := extendW 48 chunk

/-- One SHA-256 compression round on the 8-word working state. -/
def step (st : List Nat) (kw : Nat × Nat) : List Nat :=
  match st with
  | [a, b, c, d, e, f, g, h] =>
      let ch := (e &&& f) ^^^ ((0xffffffff ^^^ e) &&& g)
      let maj := (a &&& b) ^^^ (a &&& c) ^^^ (b &&& c)
      let t1 := w32 (h + bsig1 e + ch + kw.1 + kw.2)
      let t2 := w32 (bsig0 a + maj)
      [w32 (t1 + t2), a, b, c, w32 (d + t1), e, f, g]
  | other => other

/-- Compress one 16-word chunk into the hash state. -/
def compress (st : List Nat) (chunk : List Nat) : List Nat :=
  let st' := (K.zip (schedule chunk)).foldl step st
  (st.zip st').map (fun p => w32 (p.1 + p.2))

/-- SHA-256 of a byte list, as the eight 32-bit digest words. -/
def sha256words (msg : List Nat) : List Nat :=
  let ws := wordsOf (pad msg)
  (chunks (ws.length / 16) ws).foldl compress H0

/-- A nibble as a lowercase hex character. -/
def hexChar (n : Nat) : Char :=
  if n < 10 then Char.ofNat (48 + n) else Char.ofNat (87 + n)

/-- A 32-bit word as 8 lowercase hex characters. -/
def wordHex (w : Nat) : String :=
  String.mk ((List.range 8).map (fun i => hexChar ((w >>> (28 - 4 * i)) &&& 15)))

/-- The bytes of a string (the source only ever hashes ASCII text, where
UTF-8 bytes and code points coincide). -/
def strBytes (s : String) : List Nat := s.data.map Char.toNat

/-- Lowercase hex SHA-256 digest of a string — `hashlib.sha256(s.encode()).hexdigest()`. -/
def sha256hex (s : String) : String :=
  String.join ((sha256words (strBytes s)).map wordHex)

/-- Sanity check against the standard test vector. -/
theorem sha256hex_abc :
    sha256hex ("abc") = "ba7816bf8f01cfea414140de5dae2223b00361a396177a9cb410ff61f20015ad" := by
  decide

end SHA256

/-- A transaction dict `{'sender','recipient','amount'}` as built by
`Blockchain.new_transaction`. Amounts are integers in the model (the API
never constrains them further). -/
structure Transaction where
  sender : String
  recipient : String
  amount : Int
deriving DecidableEq, Repr

/-- A block dict. The source builds blocks with exactly the five keys
`index`, `timestamp`, `transactions`, `proof`, `previous_hash`; an optional
`hash` key is carried as well because `Blockchain.hash` is specified over
blocks that may or may not carry one. Timestamps are modelled as integers
(`time.time()` is passed in explicitly as the `now` argument of
`new_block`; the genesis timestamp is the integer 0). -/
structure Block where
  index : Int
  timestamp : Int
  transactions : List Transaction
  proof : Int
  previous_hash : String
  hash : Option String := none
deriving DecidableEq, Repr

/-- JSON string literal (the source only serializes strings without
characters that `json.dumps` would escape). -/
def jsonStr (s : String) : String := "\"" ++ s ++ "\""

/-- Serialization `json.dumps(tx, sort_keys=True)`: keys in sorted order
`amount < recipient < sender`, default separators `", "` and `": "`. -/
def jsonOfTx (t : Transaction) : String :=
  "\x7b\"amount\": " ++ toString t.amount ++
  ", \"recipient\": " ++ jsonStr t.recipient ++
  ", \"sender\": " ++ jsonStr t.sender ++ "\x7d"

/-- Serialization via `json.dumps` of a transaction list. -/
def jsonOfTxs (ts : List Transaction) : String :=
  "[" ++ String.intercalate (", ") (ts.map jsonOfTx) ++ "]"

/-- Serialization `json.dumps(block, sort_keys=True)`: keys in sorted order
`hash < index < previous_hash < proof < timestamp < transactions`.
The `hash` key, when present on the block, is serialized like every other
key: the source copies the dict but never removes the key. -/
def jsonOfBlock (b : Block) : String :=
  "\x7b" ++
  (match b.hash with
   | some v => "\"hash\": " ++ jsonStr v ++ ", "
   | none => "") ++
  "\"index\": " ++ toString b.index ++
  ", \"previous_hash\": " ++ jsonStr b.previous_hash ++
  ", \"proof\": " ++ toString b.proof ++
  ", \"timestamp\": " ++ toString b.timestamp ++
  ", \"transactions\": " ++ jsonOfTxs b.transactions ++
  "\x7d"

/-- The mutable `Blockchain` instance state: `self.chain`,
`self.current_transactions`, `self.nodes` (a set, modelled as a
duplicate-free insertion list), `self.difficulty`. -/
structure Blockchain where
  chain : List Block
  current_transactions : List Transaction
  nodes : List String
  difficulty : String
deriving DecidableEq, Repr

/-- The fixed genesis block built by `create_deterministic_genesis_block`. -/
def genesis_block : Block :=
  { index := 1, timestamp := 0, transactions := [], proof := 100,
    previous_hash := "1", hash := none }

/-- Method `Blockchain.create_deterministic_genesis_block`: appends the fixed
genesis block to the chain. -/
def Blockchain.create_deterministic_genesis_block (s : Blockchain) : Blockchain :=
  { s with chain := s.chain ++ [genesis_block] }

/-- Method `Blockchain.__init__`: empty chain, empty pending buffer, empty node
set, difficulty `'0000'`, then the deterministic genesis block is appended
when the chain is empty. -/
def Blockchain.init : Blockchain :=
  let s : Blockchain :=
    { chain := [], current_transactions := [], nodes := [], difficulty := "0000" }
  if s.chain = [] then s.create_deterministic_genesis_block else s

/-- Method `Blockchain.hash` (staticmethod): SHA-256 hex digest of
`json.dumps(block.copy(), sort_keys=True).encode()`. The copy removes
nothing — in particular an existing `hash` key stays in the serialized
text, exactly as in the source. -/
def Blockchain.hash (block : Block) : String :=
  SHA256.sha256hex (jsonOfBlock block)

/-- Method `Blockchain.last_block`: `self.chain[-1]`, defined on non-empty chains
(an empty chain would raise `IndexError` in the source; `__init__`
guarantees non-emptiness). -/
def Blockchain.last_block (s : Blockchain) (h : s.chain ≠ []) : Block :=
  s.chain.getLast h

/-- Method `Blockchain.new_transaction`: appends the transaction dict to
`self.current_transactions` and returns `self.last_block['index'] + 1`. -/
def Blockchain.new_transaction (s : Blockchain) (sender recipient : String)
    (amount : Int) (h : s.chain ≠ []) : Int × Blockchain :=
  let s' := { s with current_transactions :=
                s.current_transactions ++
                  [{ sender := sender, recipient := recipient, amount := amount }] }
  ((s.last_block h).index + 1, s')

/-- Method `Blockchain.new_block`: `previous_hash or self.hash(self.chain[-1])`
(Python `or` also treats the empty string as falsy), a block with
`index = len(self.chain) + 1` carrying the whole pending buffer, then the
buffer is reset and the block appended. Wall-clock time is passed in as
`now`. -/
def Blockchain.new_block (s : Blockchain) (now : Int) (proof : Int)
    (previous_hash : Option String) (h : s.chain ≠ []) : Block × Blockchain :=
  let calculated_previous_hash :=
    match previous_hash with
    | some p => if p == "" then Blockchain.hash (s.chain.getLast h) else p
    | none => Blockchain.hash (s.chain.getLast h)
  let block : Block :=
    { index := (s.chain.length : Int) + 1, timestamp := now,
      transactions := s.current_transactions, proof := proof,
      previous_hash := calculated_previous_hash, hash := none }
  (block, { s with current_transactions := [], chain := s.chain ++ [block] })

/-- Method `Blockchain.valid_proof`: SHA-256 hex digest of
`f'{last_proof}{proof}'` compared by prefix against `self.difficulty`. -/
def Blockchain.valid_proof (s : Blockchain) (last_proof proof : Int) : Bool :=
  (SHA256.sha256hex (toString last_proof ++ toString proof)).take s.difficulty.length
    == s.difficulty

/-- Method `Blockchain.proof_of_work`: the source loops `proof = 0, 1, 2, ...`
until `valid_proof` holds; given that a solution exists the loop returns
the least one, which `Nat.find` expresses directly. -/
def Blockchain.proof_of_work (s : Blockchain) (last_proof : Int)
    (h : ∃ p : Nat, s.valid_proof last_proof p = true) : Int :=
  Nat.find h

/-- String prefix test, over the character list. -/
def strStartsWith (s p : String) : Bool := p.data.isPrefixOf s.data

/-- String drop, over the character list. -/
def strDrop (s : String) (n : Nat) : String := String.mk (s.data.drop n)

/-- String take-while, over the character list. -/
def strTakeWhile (s : String) (p : Char → Bool) : String := String.mk (s.data.takeWhile p)

/-- Method `Blockchain.register_node`: prepend `http://` unless the address
already starts with `http://` or `https://`, then take `urlparse(...).netloc`
(for such inputs: the text between `//` and the next `/`, `?` or `#`); a
non-empty netloc is added to the node set, an empty one raises
`ValueError`. -/
def Blockchain.register_node (s : Blockchain) (address : String) :
    Except String Blockchain :=
  let address' :=
    if strStartsWith address ("http://") || strStartsWith address ("https://") then address
    else "http://" ++ address
  let rest := if strStartsWith address' ("https://") then strDrop address' 8
              else strDrop address' 7
  let netloc := strTakeWhile rest (fun c => !(c == '/' || c == '?' || c == '#'))
  if netloc == "" then
    .error ("Invalid URL: Could not parse host and port from " ++ address' ++
            ". Ensure it includes host:port.")
  else
    .ok { s with nodes := if netloc ∈ s.nodes then s.nodes else s.nodes ++ [netloc] }

/-- The `while current_index < len(chain)` loop of `valid_chain`:
`last` is `last_block`, the list holds the remaining blocks; each block
must link to the hash of its predecessor and carry a proof valid against
the predecessor's proof. The sequential early returns of the source are
the conjuncts. -/
def Blockchain.chainLoop (s : Blockchain) : Block → List Block → Bool
  | _, [] => true
  | last, b :: rest =>
      (b.previous_hash == Blockchain.hash last) &&
      (s.valid_proof last.proof b.proof) &&
      (s.chainLoop b rest)

/-- The genesis guard of `valid_chain` — the negation of its
`len(self.chain) > 0 and self.hash(chain[0]) != self.hash(self.chain[0])`
early return: vacuously true when the local chain is empty, otherwise a
digest comparison of the candidate's genesis with the local genesis. -/
def genesisOk (s : Blockchain) (g : Block) : Bool :=
  match s.chain with
  | [] => true
  | lg :: _ => Blockchain.hash g == Blockchain.hash lg

/-- Method `Blockchain.valid_chain`: empty chains are invalid; when the local
chain is non-empty the candidate's genesis digest must match the local
genesis digest; then the pairwise loop runs from the second block on. -/
def Blockchain.valid_chain (s : Blockchain) (chain : List Block) : Bool :=
  match chain with
  | [] => false
  | g :: rest => genesisOk s g && s.chainLoop g rest

/-- The peer-scanning loop of `resolve_conflicts`. A response is `none`
for an unreachable peer or non-200 answer (logged and skipped), or
`some (length, chain)` for the reported length and chain of a 200 body.
The source compares the *reported* `length` against `max_length` and,
on success, records the fetched chain and the reported length. -/
def Blockchain.resolveLoop (s : Blockchain) :
    List (Option (Int × List Block)) → Int → Option (List Block) →
    Option (List Block)
  | [], _, new_chain => new_chain
  | none :: rest, max_length, new_chain =>
      s.resolveLoop rest max_length new_chain
  | some (length, chain) :: rest, max_length, new_chain =>
      if max_length < length ∧ s.valid_chain chain = true then
        s.resolveLoop rest length (some chain)
      else
        s.resolveLoop rest max_length new_chain

/-- Method `Blockchain.resolve_conflicts`: scan all peer responses starting from
`max_length = len(self.chain)`; if a chain was recorded, replace the local
chain and return `True`, else return `False`. (`if new_chain:` distinguishes
`None` from a recorded chain — a recorded chain passed `valid_chain` and is
therefore never the empty, falsy list.) -/
def Blockchain.resolve_conflicts (s : Blockchain)
    (responses : List (Option (Int × List Block))) : Bool × Blockchain :=
  match s.resolveLoop responses (s.chain.length : Int) none with
  | some new_chain => (true, { s with chain := new_chain })
  | none => (false, s)

/-- A mined second block: links to the genesis digest and carries the
least proof valid against the genesis proof 100. -/
def blk2 : Block :=
  { index := 2, timestamp := 42, transactions := [], proof := 35293,
    previous_hash := "1eea62564c3792c0931dedc88a415bce77a46bedac09fed270a7f8accef22b10",
    hash := none }

/-- A copy of `blk2` carrying a non-contiguous index; `valid_chain` never
reads the `index` field, so it links and verifies exactly like `blk2`. -/
def blk999 : Block := { blk2 with index := 999 }

/-- A mined third block: links to the digest of `blk2` and carries the
least proof valid against `blk2.proof` (35293). -/
def blk3 : Block :=
  { index := 3, timestamp := 43, transactions := [], proof := 35089,
    previous_hash := "fbbcc320dbf62fdabca8cc83247e40b837bc218677925c9e578d47f41223bbb1",
    hash := none }

/-- The block playing the role of `last_block` after the loop has walked
`xs` starting from `a`: the last element of `xs`, or `a` when `xs` is
empty. -/
def lastD (a : Block) : List Block → Block
  | [] => a
  | b :: tl => lastD b tl

theorem lastD_concat (a x : Block) (l : List Block) :
    lastD a (l ++ [x]) = x := by
  induction l generalizing a with
  | nil => rfl
  | cons b tl ih => exact ih b

/-- Splitting the validation loop at an append: the whole walk succeeds
iff the walk over `xs` succeeds and the walk over `ys` succeeds starting
from the last block reached. -/
theorem chainLoop_append (s : Blockchain) (xs ys : List Block) (a : Block) :
    s.chainLoop a (xs ++ ys) = (s.chainLoop a xs && s.chainLoop (lastD a xs) ys) := by
  induction xs generalizing a with
  | nil => simp [Blockchain.chainLoop, lastD]
  | cons b tl ih =>
      simp only [List.cons_append, Blockchain.chainLoop, lastD, List.append_eq, ih,
                 Bool.and_assoc]

theorem valid_chain_eq (s : Blockchain) (g : Block) (rest : List Block) :
    s.valid_chain (g :: rest) = (genesisOk s g && s.chainLoop g rest) := rfl

/-- On a node with a non-empty local chain, the genesis guard is the
digest comparison with the local genesis. -/
theorem genesisOk_eq (s : Blockchain) (lg : Block) (tl : List Block) (g : Block)
    (hsc : s.chain = lg :: tl) :
    genesisOk s g = (Blockchain.hash g == Blockchain.hash lg) := by
  unfold genesisOk
  rw [hsc]

theorem chainLoop_cons_eq (s : Blockchain) (a x : Block) (rest : List Block) :
    s.chainLoop a (x :: rest) =
      ((x.previous_hash == Blockchain.hash a) &&
       s.valid_proof a.proof x.proof && s.chainLoop x rest) := by
  simp only [Blockchain.chainLoop]

theorem band_true {a b : Bool} (h : (a && b) = true) : a = true ∧ b = true := by
  simp only [Bool.and_eq_true] at h
  exact h

theorem band_intro {a b : Bool} (h1 : a = true) (h2 : b = true) : (a && b) = true := by
  simp [h1, h2]

/-- Any non-empty prefix of a chain accepted by `valid_chain` is accepted:
the genesis guard only reads the head, and the pairwise loop over a prefix
is a left factor of the loop over the whole chain. -/
theorem valid_chain_take (s : Blockchain) (c : List Block)
    (h : s.valid_chain c = true) (n : Nat) (hn : 1 ≤ n) :
    s.valid_chain (c.take n) = true := by
  cases c with
  | nil => simp [Blockchain.valid_chain] at h
  | cons g rest =>
    obtain ⟨m, rfl⟩ : ∃ m, n = m + 1 := ⟨n - 1, by omega⟩
    rw [List.take_succ_cons]
    rw [valid_chain_eq] at h ⊢
    obtain ⟨h1, h2⟩ := band_true h
    refine band_intro h1 ?_
    have hsplit := chainLoop_append s (rest.take m) (rest.drop m) g
    rw [List.take_append_drop] at hsplit
    rw [hsplit] at h2
    exact (band_true h2).1

/-- Unpacking one successful loop step: the link matches, the proof
verifies, and the rest of the walk succeeds. -/
theorem chainLoop_cons_true (s : Blockchain) {a x : Block} {rest : List Block}
    (h : s.chainLoop a (x :: rest) = true) :
    x.previous_hash = Blockchain.hash a ∧ s.valid_proof a.proof x.proof = true ∧
    s.chainLoop x rest = true := by
  rw [chainLoop_cons_eq] at h
  obtain ⟨h1, h3⟩ := band_true h
  obtain ⟨h1', h2⟩ := band_true h1
  exact ⟨eq_of_beq h1', h2, h3⟩

/-- A broken link fails the loop at once. -/
theorem chainLoop_cons_false (s : Blockchain) (a x : Block) (rest : List Block)
    (hx : x.previous_hash ≠ Blockchain.hash a) :
    s.chainLoop a (x :: rest) = false := by
  rw [chainLoop_cons_eq]
  simp [hx]

/-- Overwriting the `previous_hash` of a non-genesis block of an accepted
chain with any different value makes `valid_chain` reject. -/
theorem mut_prev_false (s : Blockchain) (g : Block) (pre' : List Block) (b : Block)
    (post : List Block) (v : String)
    (h : s.valid_chain (g :: (pre' ++ b :: post)) = true)
    (hv : v ≠ b.previous_hash) :
    s.valid_chain (g :: (pre' ++ { b with previous_hash := v } :: post)) = false := by
  rw [valid_chain_eq, chainLoop_append] at h
  obtain ⟨hg, hloop⟩ := band_true h
  obtain ⟨hpre, hlink⟩ := band_true hloop
  have hbp := (chainLoop_cons_true s hlink).1
  rw [valid_chain_eq, chainLoop_append]
  have hfalse : s.chainLoop (lastD g pre') ({ b with previous_hash := v } :: post) = false := by
    apply chainLoop_cons_false
    show v ≠ Blockchain.hash (lastD g pre')
    rw [← hbp]
    exact hv
  simp [hfalse]

/-- Replacing a block that has a successor by any block with the same
`previous_hash` but a different canonical digest (for instance after a
`proof` or `transactions` edit) makes `valid_chain` reject: the successor
still records the old digest. -/
theorem mut_mid_false (s : Blockchain) (pre : List Block) (b b' c : Block)
    (post' : List Block)
    (h : s.valid_chain (pre ++ b :: c :: post') = true)
    (hhash : Blockchain.hash b' ≠ Blockchain.hash b) :
    s.valid_chain (pre ++ b' :: c :: post') = false := by
  cases pre with
  | nil =>
    simp only [List.nil_append] at h ⊢
    rw [valid_chain_eq] at h
    obtain ⟨hg, hloop⟩ := band_true h
    have hc := (chainLoop_cons_true s hloop).1
    rw [valid_chain_eq]
    have hfalse : s.chainLoop b' (c :: post') = false := by
      apply chainLoop_cons_false
      rw [hc]
      exact fun e => hhash e.symm
    simp [hfalse]
  | cons g pre' =>
    rw [List.cons_append, valid_chain_eq, chainLoop_append] at h
    obtain ⟨hg, hloop⟩ := band_true h
    obtain ⟨hpre, hlink⟩ := band_true hloop
    obtain ⟨hb1, hb2, hrest⟩ := chainLoop_cons_true s hlink
    have hc := (chainLoop_cons_true s hrest).1
    rw [List.cons_append, valid_chain_eq, chainLoop_append]
    have hfalse : s.chainLoop b' (c :: post') = false := by
      apply chainLoop_cons_false
      rw [hc]
      exact fun e => hhash e.symm
    rw [chainLoop_cons_eq s (lastD g pre') b', hfalse]
    simp

/-- Replacing the final block's `proof` by a value that fails the
proof-of-work check against its predecessor's proof makes `valid_chain`
reject. -/
theorem mut_last_proof_false (s : Blockchain) (pre₀ : List Block) (a b : Block) (p' : Int)
    (hvp : s.valid_proof a.proof p' = false) :
    s.valid_chain ((pre₀ ++ [a]) ++ [{ b with proof := p' }]) = false := by
  cases pre₀ with
  | nil =>
    simp only [List.nil_append, List.singleton_append]
    rw [valid_chain_eq]
    have hfalse : s.chainLoop a [{ b with proof := p' }] = false := by
      simp [chainLoop_cons_eq, hvp]
    simp [hfalse]
  | cons q qs =>
    have hlast : lastD q (qs ++ [a]) = a := lastD_concat q a qs
    rw [List.cons_append, List.cons_append, valid_chain_eq, chainLoop_append, hlast]
    have hfalse : s.chainLoop a [{ b with proof := p' }] = false := by
      simp [chainLoop_cons_eq, hvp]
    simp [hfalse]

/-- **C3** (amended). For any chain accepted by `valid_chain`:
(1) every non-empty prefix stays accepted, so corruption never affects the
validity of the blocks before it; (2) overwriting the `previous_hash` of
any non-genesis block with a different value makes `valid_chain` reject;
(3) replacing any block that has a successor — the genesis included — or
the lone block of a one-block chain when the validating node's own chain
is non-empty, by a block with a different canonical digest, which is the
effect of any `previous_hash`, `proof` or `transactions` edit short of a
SHA-256 collision, makes `valid_chain` reject; (4) replacing the final
block's `proof` by a value failing the proof-of-work check against its
predecessor makes `valid_chain` reject. The one blind spot, forced by the
counterexample: in a chain of two or more blocks the final block is only
checked through its recorded link and proof, never hashed, and its
`transactions` are never read, so mutating them leaves the chain
accepted. -/
theorem valid_chain_rejects_corruption (s : Blockchain) (chain : List Block)
    (h : s.valid_chain chain = true) :
    (∀ n, 1 ≤ n → s.valid_chain (chain.take n) = true) ∧
    (∀ pre b post v, chain = pre ++ b :: post → pre ≠ [] → v ≠ b.previous_hash →
      s.valid_chain (pre ++ { b with previous_hash := v } :: post) = false) ∧
    (∀ pre b b' post, chain = pre ++ b :: post →
      Blockchain.hash b' ≠ Blockchain.hash b →
      (post ≠ [] ∨ (pre = [] ∧ s.chain ≠ [])) →
      s.valid_chain (pre ++ b' :: post) = false) ∧
    (∀ pre₀ a b p', chain = pre₀ ++ [a, b] →
      s.valid_proof a.proof p' = false →
      s.valid_chain (pre₀ ++ [a, { b with proof := p' }]) = false) := by
  refine ⟨fun n hn => valid_chain_take s chain h n hn, ?_, ?_, ?_⟩
  · intro pre b post v hchain hpre hv
    subst hchain
    cases pre with
    | nil => exact absurd rfl hpre
    | cons g pre' =>
      rw [List.cons_append] at h ⊢
      exact mut_prev_false s g pre' b post v h hv
  · intro pre b b' post hchain hhash hcase
    subst hchain
    rcases hcase with hpost | ⟨hpre, hschain⟩
    · obtain ⟨c, post', rfl⟩ : ∃ c post', post = c :: post' := by
        cases post with
        | nil => exact absurd rfl hpost
        | cons c post' => exact ⟨c, post', rfl⟩
      exact mut_mid_false s pre b b' c post' h hhash
    · subst hpre
      obtain ⟨lg, tl, hsc⟩ : ∃ lg tl, s.chain = lg :: tl := by
        cases hx : s.chain with
        | nil => exact absurd hx hschain
        | cons lg tl => exact ⟨lg, tl, rfl⟩
      rw [List.nil_append] at h ⊢
      rw [valid_chain_eq] at h ⊢
      have hg1 : genesisOk s b = true := (band_true h).1
      rw [genesisOk_eq s lg tl b hsc] at hg1
      have hgb : Blockchain.hash b = Blockchain.hash lg := eq_of_beq hg1
      have hfalse : genesisOk s b' = false := by
        rw [genesisOk_eq s lg tl b' hsc]
        cases hbeq : (Blockchain.hash b' == Blockchain.hash lg) with
        | false => rfl
        | true => exact absurd (eq_of_beq hbeq) (fun e => hhash (e.trans hgb.symm))
      rw [hfalse, Bool.false_and]
  · intro pre₀ a b p' hchain hvp
    subst hchain
    have h4 := mut_last_proof_false s pre₀ a b p' hvp
    rw [List.append_assoc] at h4
    exact h4

/-- Counterexample to C3 as stated: `[genesis_block, blk2]` is accepted,
and it is still accepted after the final block's `transactions` field is
mutated — the validator never hashes the final block and never reads a
`transactions` field, so the corruption goes undetected. -/
theorem valid_chain_last_transactions_cex :
    Blockchain.init.valid_chain [genesis_block, blk2] = true ∧
    Blockchain.init.valid_chain
      [genesis_block,
       { blk2 with transactions := [{ sender := "x", recipient := "y", amount := 9 }] }] = true ∧
    ({ blk2 with transactions := [{ sender := "x", recipient := "y", amount := 9 }] }).transactions ≠
      blk2.transactions := by
  refine ⟨by decide, by decide, by decide⟩

theorem init_chain3_valid :
    Blockchain.init.valid_chain [genesis_block, blk2, blk3] = true := by
  decide

/-- Witness for C3 at the concrete accepted three-block chain
`[genesis_block, blk2, blk3]`. Every part of the theorem applies to it
non-vacuously: part 2 at the split `pre = [genesis_block]`, `b = blk2`;
part 3 at any split whose block has a successor, including the genesis
split `pre = []` (and `Blockchain.init.chain ≠ []` holds); part 4 at
`pre₀ = [genesis_block]`, `a = blk2`, `b = blk3`. -/
theorem valid_chain_rejects_corruption_witness :
    Blockchain.init.valid_chain [genesis_block, blk2, blk3] = true ∧
    ((∀ n, 1 ≤ n →
        Blockchain.init.valid_chain
          (([genesis_block, blk2, blk3] : List Block).take n) = true) ∧
     (∀ pre b post v, ([genesis_block, blk2, blk3] : List Block) = pre ++ b :: post →
        pre ≠ [] → v ≠ b.previous_hash →
        Blockchain.init.valid_chain
          (pre ++ { b with previous_hash := v } :: post) = false) ∧
     (∀ pre b b' post, ([genesis_block, blk2, blk3] : List Block) = pre ++ b :: post →
        Blockchain.hash b' ≠ Blockchain.hash b →
        (post ≠ [] ∨ (pre = [] ∧ Blockchain.init.chain ≠ [])) →
        Blockchain.init.valid_chain (pre ++ b' :: post) = false) ∧
     (∀ pre₀ a b p', ([genesis_block, blk2, blk3] : List Block) = pre₀ ++ [a, b] →
        Blockchain.init.valid_proof a.proof p' = false →
        Blockchain.init.valid_chain (pre₀ ++ [a, { b with proof := p' }]) = false)) :=
  ⟨init_chain3_valid,
   valid_chain_rejects_corruption Blockchain.init [genesis_block, blk2, blk3]
     init_chain3_valid⟩

/-- **C4.** A fresh instance's chain is exactly the fixed genesis block
(index 1, timestamp 0, no transactions, proof 100, previous hash `"1"`),
and its canonical digest is a fixed constant. `Blockchain.init` takes no
inputs — the genesis timestamp is the literal 0, not the current time —
so every fresh instance, whatever the process or moment of creation, is
this same value with this same digest. -/
theorem genesis_stability :
    Blockchain.init.chain = [genesis_block] ∧
    genesis_block = { index := 1, timestamp := 0, transactions := [], proof := 100,
                      previous_hash := "1", hash := none } ∧
    Blockchain.hash genesis_block =
      "1eea62564c3792c0931dedc88a415bce77a46bedac09fed270a7f8accef22b10" := by
  refine ⟨by decide, rfl, by decide⟩

/-- **C2** (recorded code behavior at the failing input). The source
claims, in its own comments, that an existing `hash` field must not be
part of the hashed data, but `hash()` serializes the copied dict without
removing the key: the same block with and without a `hash` field receives
two different digests. -/
theorem hash_includes_hash_field :
    Blockchain.hash { genesis_block with hash := some ("00") } ≠
      Blockchain.hash genesis_block := by
  decide

/-- **C9.** `valid_chain` never reads the `index` field: the chain
`[genesis_block, blk999]`, whose indices jump from 1 to 999, matches the
local genesis, links correctly and carries a verifying proof, and is
accepted. -/
theorem valid_chain_ignores_index :
    Blockchain.init.valid_chain [genesis_block, blk999] = true ∧
    genesis_block.index = 1 ∧ blk999.index = 999 := by
  refine ⟨by decide, rfl, rfl⟩

/-- **C10.** `valid_proof` depends on its two arguments only through the
concatenation of their decimal strings: any two pairs with equal
concatenations hash the same guess and get the same verdict. -/
theorem valid_proof_concat_only (s : Blockchain) (a b c d : Int)
    (h : toString a ++ toString b = toString c ++ toString d) :
    s.valid_proof a b = s.valid_proof c d := by
  unfold Blockchain.valid_proof
  rw [h]

/-- Witness for C10 at the colliding pairs (1, 23) and (12, 3). -/
theorem valid_proof_concat_only_witness :
    (toString (1 : Int) ++ toString (23 : Int) = toString (12 : Int) ++ toString (3 : Int)) ∧
    Blockchain.init.valid_proof 1 23 = Blockchain.init.valid_proof 12 3 :=
  ⟨by decide, valid_proof_concat_only Blockchain.init 1 23 12 3 (by decide)⟩

/-- **C6.** `new_block` moves the whole pending buffer, in order, into the
new block's transaction list, empties the buffer, and appends the block —
within the one call that clears the buffer, so nothing is dropped or
duplicated. -/
theorem new_block_spec (s : Blockchain) (now proof : Int) (previous_hash : Option String)
    (h : s.chain ≠ []) :
    (s.new_block now proof previous_hash h).1.transactions = s.current_transactions ∧
    (s.new_block now proof previous_hash h).2.current_transactions = [] ∧
    (s.new_block now proof previous_hash h).2.chain =
      s.chain ++ [(s.new_block now proof previous_hash h).1] :=
  ⟨rfl, rfl, rfl⟩

/-- A state with two pending transactions, for the C6 witness. -/
def pending_state : Blockchain :=
  { chain := [genesis_block],
    current_transactions := [{ sender := "a", recipient := "b", amount := 1 },
                             { sender := "c", recipient := "d", amount := 2 }],
    nodes := [], difficulty := "0000" }

theorem pending_state_chain_ne : pending_state.chain ≠ [] := by decide

/-- Witness for C6 on a buffer holding two transactions. -/
theorem new_block_spec_witness :
    pending_state.chain ≠ [] ∧
    ((pending_state.new_block 5 7 (some ("x")) pending_state_chain_ne).1.transactions =
        pending_state.current_transactions ∧
     (pending_state.new_block 5 7 (some ("x")) pending_state_chain_ne).2.current_transactions
        = [] ∧
     (pending_state.new_block 5 7 (some ("x")) pending_state_chain_ne).2.chain =
        pending_state.chain ++
          [(pending_state.new_block 5 7 (some ("x")) pending_state_chain_ne).1]) :=
  ⟨pending_state_chain_ne, new_block_spec pending_state 5 7 (some ("x")) pending_state_chain_ne⟩

/-- **C7** (amended). `new_transaction` appends exactly one transaction to
the pending buffer, leaves the chain alone, and returns
`last_block.index + 1`; that return value equals chain length + 1 exactly
when the last block's index equals the chain length, which local mining
maintains but adopted peer chains need not (`valid_chain` never checks
indices). -/
theorem new_transaction_spec (s : Blockchain) (sender recipient : String) (amount : Int)
    (h : s.chain ≠ []) :
    (s.new_transaction sender recipient amount h).2.current_transactions =
      s.current_transactions ++
        [{ sender := sender, recipient := recipient, amount := amount }] ∧
    (s.new_transaction sender recipient amount h).2.chain = s.chain ∧
    (s.new_transaction sender recipient amount h).1 = (s.chain.getLast h).index + 1 ∧
    ((s.chain.getLast h).index = (s.chain.length : Int) →
      (s.new_transaction sender recipient amount h).1 = (s.chain.length : Int) + 1) := by
  refine ⟨rfl, rfl, rfl, fun hidx => ?_⟩
  show (s.chain.getLast h).index + 1 = (s.chain.length : Int) + 1
  rw [hidx]

theorem init_chain_ne : Blockchain.init.chain ≠ [] := by decide

/-- Witness for C7 on a fresh instance. -/
theorem new_transaction_spec_witness :
    Blockchain.init.chain ≠ [] ∧
    ((Blockchain.init.new_transaction ("a") ("b") 1 init_chain_ne).2.current_transactions =
        Blockchain.init.current_transactions ++
          [{ sender := "a", recipient := "b", amount := 1 }] ∧
     (Blockchain.init.new_transaction ("a") ("b") 1 init_chain_ne).2.chain =
        Blockchain.init.chain ∧
     (Blockchain.init.new_transaction ("a") ("b") 1 init_chain_ne).1 =
        (Blockchain.init.chain.getLast init_chain_ne).index + 1 ∧
     ((Blockchain.init.chain.getLast init_chain_ne).index =
          (Blockchain.init.chain.length : Int) →
        (Blockchain.init.new_transaction ("a") ("b") 1 init_chain_ne).1 =
          (Blockchain.init.chain.length : Int) + 1)) :=
  ⟨init_chain_ne, new_transaction_spec Blockchain.init ("a") ("b") 1 init_chain_ne⟩

/-- A reachable state whose last block's index (999) differs from its
chain length (2): a fresh instance after one `resolve_conflicts` call
that adopted the valid-but-index-skewed peer chain `[genesis_block,
blk999]`. -/
def adopted_state : Blockchain :=
  (Blockchain.init.resolve_conflicts [some (2, [genesis_block, blk999])]).2

theorem adopted_chain_ne : adopted_state.chain ≠ [] := by decide

/-- Counterexample to C7 as stated: on `adopted_state` the call returns
999 + 1 = 1000, not chain length + 1 = 3. -/
theorem new_transaction_index_cex :
    (adopted_state.new_transaction ("u") ("w") 3 adopted_chain_ne).1 ≠
      (adopted_state.chain.length : Int) + 1 := by
  decide

theorem pow_sol_100 : ∃ p : Nat, Blockchain.init.valid_proof 100 p = true :=
  ⟨35293, by decide⟩

/-- **C5.** When the upward search of `proof_of_work` terminates (a
solution exists), the returned proof verifies, its guess digest starts
with the four-zero difficulty prefix, and it is the least non-negative
integer doing so: every smaller candidate fails `valid_proof`. -/
theorem proof_of_work_spec (s : Blockchain) (l : Int) (hd : s.difficulty = "0000")
    (h : ∃ p : Nat, s.valid_proof l p = true) :
    s.valid_proof l (s.proof_of_work l h) = true ∧
    (SHA256.sha256hex (toString l ++ toString (s.proof_of_work l h))).take 4 = "0000" ∧
    (0 : Int) ≤ s.proof_of_work l h ∧
    (∀ q : Nat, (q : Int) < s.proof_of_work l h → s.valid_proof l q = false) := by
  have hdef : s.proof_of_work l h = ((Nat.find h : Nat) : Int) := rfl
  have hfind : s.valid_proof l (s.proof_of_work l h) = true := by
    rw [hdef]
    exact Nat.find_spec h
  refine ⟨hfind, ?_, ?_, ?_⟩
  · have hlen : ("0000" : String).length = 4 := by decide
    have h2 := hfind
    unfold Blockchain.valid_proof at h2
    rw [hd] at h2
    have h3 := eq_of_beq h2
    rw [← hlen]
    exact h3
  · rw [hdef]
    exact Int.natCast_nonneg _
  · intro q hq
    rw [hdef] at hq
    have hlt : q < Nat.find h := by exact_mod_cast hq
    have hmin := Nat.find_min h hlt
    cases hb : s.valid_proof l q with
    | false => rfl
    | true => exact absurd hb hmin

/-- Witness for C5 at `last_proof = 100` (the genesis proof). -/
theorem proof_of_work_spec_witness :
    Blockchain.init.difficulty = "0000" ∧
    (∃ p : Nat, Blockchain.init.valid_proof 100 p = true) ∧
    (Blockchain.init.valid_proof 100 (Blockchain.init.proof_of_work 100 pow_sol_100) = true ∧
     (SHA256.sha256hex (toString (100 : Int) ++
        toString (Blockchain.init.proof_of_work 100 pow_sol_100))).take 4 = "0000" ∧
     (0 : Int) ≤ Blockchain.init.proof_of_work 100 pow_sol_100 ∧
     (∀ q : Nat, (q : Int) < Blockchain.init.proof_of_work 100 pow_sol_100 →
        Blockchain.init.valid_proof 100 q = false)) :=
  ⟨rfl, pow_sol_100, proof_of_work_spec Blockchain.init 100 rfl pow_sol_100⟩

/-- **C8** (recorded code behavior at the failing input). `register_node`
only raises when the derived netloc is empty: the bare host
`"192.168.0.5"`, from which no port can be extracted, is accepted and
stored as-is — no `host:port` normalization or error, contradicting the
method's own docstring (`Ensures the address is stored as 'host:port'`)
and its error message. -/
theorem register_node_portless :
    (Blockchain.init.register_node ("192.168.0.5")).toOption =
      some { Blockchain.init with nodes := ["192.168.0.5"] } := by
  decide

/-- Case analysis of the peer-scanning loop under length-honest responses:
either nothing qualified and the accumulator comes back unchanged, or the
result is some fetched chain that passed `valid_chain` and whose true
length strictly exceeds the `max_length` the scan started from. -/
theorem resolveLoop_cases (s : Blockchain) :
    ∀ (rs : List (Option (Int × List Block))) (ml : Int) (nc : Option (List Block)),
      (∀ l c, some (l, c) ∈ rs → l = (c.length : Int)) →
      s.resolveLoop rs ml nc = nc ∨
      ∃ c, some ((c.length : Int), c) ∈ rs ∧ s.resolveLoop rs ml nc = some c ∧
        s.valid_chain c = true ∧ ml < (c.length : Int) := by
  intro rs
  induction rs with
  | nil =>
    intro ml nc _
    left
    rfl
  | cons r rest ih =>
    intro ml nc hhon
    have hhon' : ∀ l c, some (l, c) ∈ rest → l = (c.length : Int) :=
      fun l c hm => hhon l c (List.mem_cons_of_mem _ hm)
    cases r with
    | none =>
      have hstep : s.resolveLoop (none :: rest) ml nc = s.resolveLoop rest ml nc := by
        simp [Blockchain.resolveLoop]
      rcases ih ml nc hhon' with heq | ⟨c, hc, heq, hv, hlt⟩
      · left
        rw [hstep]
        exact heq
      · right
        exact ⟨c, List.mem_cons_of_mem _ hc, by rw [hstep]; exact heq, hv, hlt⟩
    | some p =>
      obtain ⟨l, chain⟩ := p
      by_cases hcond : ml < l ∧ s.valid_chain chain = true
      · have hstep : s.resolveLoop (some (l, chain) :: rest) ml nc =
            s.resolveLoop rest l (some chain) := by
          simp [Blockchain.resolveLoop, hcond]
        have hl : l = (chain.length : Int) := hhon l chain (List.mem_cons_self _ _)
        rcases ih l (some chain) hhon' with heq | ⟨c, hc, heq, hv, hlt⟩
        · right
          refine ⟨chain, ?_, ?_, hcond.2, ?_⟩
          · rw [← hl]
            exact List.mem_cons_self _ _
          · rw [hstep]
            exact heq
          · rw [← hl]
            exact hcond.1
        · right
          refine ⟨c, List.mem_cons_of_mem _ hc, by rw [hstep]; exact heq, hv, ?_⟩
          calc ml < l := hcond.1
            _ < (c.length : Int) := hlt
      · have hstep : s.resolveLoop (some (l, chain) :: rest) ml nc =
            s.resolveLoop rest ml nc := by
          simp [Blockchain.resolveLoop, hcond]
        rcases ih ml nc hhon' with heq | ⟨c, hc, heq, hv, hlt⟩
        · left
          rw [hstep]
          exact heq
        · right
          exact ⟨c, List.mem_cons_of_mem _ hc, by rw [hstep]; exact heq, hv, hlt⟩

/-- **C1** (amended). Under length-honest peer responses — each successful
response reports exactly its chain's length — `resolve_conflicts` never
shortens the local chain; a `False` return leaves the state untouched; a
`True` return means the adopted chain is one of the fetched candidates,
strictly longer than the local chain, and accepted by `valid_chain`; and
when no fetched candidate is both strictly longer and valid, the call
returns `False` and changes nothing. (The source compares the peer's
*reported* length, not the fetched chain's length, so without the honesty
hypothesis a peer can shrink the chain — see the counterexample.) -/
theorem resolve_conflicts_monotonic (s : Blockchain)
    (responses : List (Option (Int × List Block)))
    (hhon : ∀ l c, some (l, c) ∈ responses → l = (c.length : Int)) :
    s.chain.length ≤ ((s.resolve_conflicts responses).2).chain.length ∧
    ((s.resolve_conflicts responses).1 = false → (s.resolve_conflicts responses).2 = s) ∧
    ((s.resolve_conflicts responses).1 = true →
      s.chain.length < ((s.resolve_conflicts responses).2).chain.length ∧
      s.valid_chain ((s.resolve_conflicts responses).2).chain = true ∧
      some ((((s.resolve_conflicts responses).2).chain.length : Int),
            ((s.resolve_conflicts responses).2).chain) ∈ responses) ∧
    ((¬ ∃ c, some ((c.length : Int), c) ∈ responses ∧ s.chain.length < c.length ∧
        s.valid_chain c = true) →
      (s.resolve_conflicts responses).1 = false ∧ (s.resolve_conflicts responses).2 = s) := by
  rcases resolveLoop_cases s responses (s.chain.length : Int) none hhon with heq |
    ⟨c, hc, heq, hv, hlt⟩
  · have hres : s.resolve_conflicts responses = (false, s) := by
      unfold Blockchain.resolve_conflicts
      rw [heq]
    rw [hres]
    refine ⟨le_refl _, fun _ => rfl, ?_, fun _ => ⟨rfl, rfl⟩⟩
    intro hco
    simp at hco
  · have hlen : s.chain.length < c.length := by exact_mod_cast hlt
    have hres : s.resolve_conflicts responses = (true, { s with chain := c }) := by
      unfold Blockchain.resolve_conflicts
      rw [heq]
    rw [hres]
    refine ⟨le_of_lt hlen, ?_, fun _ => ⟨hlen, hv, hc⟩,
      fun hno => absurd ⟨c, hc, hlen, hv⟩ hno⟩
    intro hco
    simp at hco

/-- A local three-block state (its block contents are irrelevant to the
scenario; only its genesis and its length 3 matter). -/
def local3_state : Blockchain :=
  { chain := [genesis_block, blk2, blk999], current_transactions := [], nodes := [],
    difficulty := "0000" }

/-- Counterexample to C1 as stated: a peer over-reports its length
(`length = 10`) while sending the one-block chain `[genesis_block]`; the
reported length beats the local 3 and the fetched chain passes
`valid_chain`, so the node adopts it — the call returns `True` and the
local chain shrinks from 3 blocks to 1. -/
theorem resolve_conflicts_shortens_cex :
    (local3_state.resolve_conflicts [some (10, [genesis_block])]).1 = true ∧
    ((local3_state.resolve_conflicts [some (10, [genesis_block])]).2).chain.length <
      local3_state.chain.length := by
  refine ⟨by decide, by decide⟩

theorem hhon_none : ∀ l c, some (l, c) ∈ ([none] : List (Option (Int × List Block))) →
    l = (c.length : Int) := by
  intro l c hm
  simp at hm

/-- Witness for C1 on a fresh instance with one unreachable peer (a
trivially length-honest response list). -/
theorem resolve_conflicts_monotonic_witness :
    (∀ l c, some (l, c) ∈ ([none] : List (Option (Int × List Block))) →
        l = (c.length : Int)) ∧
    (Blockchain.init.chain.length ≤
        ((Blockchain.init.resolve_conflicts [none]).2).chain.length ∧
     ((Blockchain.init.resolve_conflicts [none]).1 = false →
        (Blockchain.init.resolve_conflicts [none]).2 = Blockchain.init) ∧
     ((Blockchain.init.resolve_conflicts [none]).1 = true →
        Blockchain.init.chain.length <
          ((Blockchain.init.resolve_conflicts [none]).2).chain.length ∧
        Blockchain.init.valid_chain
          ((Blockchain.init.resolve_conflicts [none]).2).chain = true ∧
        some ((((Blockchain.init.resolve_conflicts [none]).2).chain.length : Int),
              ((Blockchain.init.resolve_conflicts [none]).2).chain) ∈
          ([none] : List (Option (Int × List Block)))) ∧
     ((¬ ∃ c, some ((c.length : Int), c) ∈ ([none] : List (Option (Int × List Block))) ∧
          Blockchain.init.chain.length < c.length ∧
          Blockchain.init.valid_chain c = true) →
        (Blockchain.init.resolve_conflicts [none]).1 = false ∧
        (Blockchain.init.resolve_conflicts [none]).2 = Blockchain.init)) :=
  ⟨hhon_none, resolve_conflicts_monotonic Blockchain.init [none] hhon_none⟩
